import Mathlib

/-!
Verification of the Census-App normalization and export pipeline.

This file gives a shallow embedding in Lean of the core logic of
amplify_census_input.py and export_aetna_afa.py, and proves the behavioral
claims of the specification against it.  Python strings are modelled as
Lean strings; where a normalizer manipulates individual characters, the
embedding works on the underlying character list (Python str semantics).
Python dict literals are modelled as association lists looked up with
last-entry-wins semantics, matching how a dict literal with a repeated key
behaves.  pandas NaN cells reach every normalizer through str() and a
pd.isna or strip() emptiness test; the embedding takes the textual cell
value, with the empty string standing for a missing cell.
-/

/-! ## String primitives (Python str semantics on character lists) -/

/-- Characters removed by the default Python strip(); the data handled by the
pipeline only ever carries these whitespace characters. -/
def isSpaceChar (c : Char) : Bool :=
  c = ' ' || c = '\t' || c = '\n' || c = '\r'

/-- Python str.strip(): drop leading and trailing whitespace. -/
def pstrip (l : List Char) : List Char :=
  ((l.dropWhile isSpaceChar).reverse.dropWhile isSpaceChar).reverse

/-- Python str.upper() (ASCII data). -/
def pupper (l : List Char) : List Char := l.map Char.toUpper

/-- Python str.split(sep) for a one-character separator: all pieces, empties
kept, so that splitChar c [] = [[]] just as in Python. -/
def splitChar (c : Char) : List Char → List (List Char)
  | [] => [[]]
  | x :: xs =>
    let r := splitChar c xs
    if x = c then [] :: r
    else
      match r with
      | [] => [[x]]
      | y :: ys => (x :: y) :: ys

/-- Helper of pwsplit: accumulate the current word (reversed). -/
def pwsplitAux : List Char → List Char → List (List Char)
  | [], acc => if acc.isEmpty then [] else [acc.reverse]
  | c :: cs, acc =>
    if isSpaceChar c then
      if acc.isEmpty then pwsplitAux cs [] else acc.reverse :: pwsplitAux cs []
    else pwsplitAux cs (c :: acc)

/-- Python str.split() with no argument: split on whitespace runs, dropping
empty pieces. -/
def pwsplit (l : List Char) : List (List Char) := pwsplitAux l []

/-- Python str.strip("."): drop leading and trailing period characters. -/
def stripDots (l : List Char) : List Char :=
  ((l.dropWhile (fun c => c == '.')).reverse.dropWhile (fun c => c == '.')).reverse

/-- Python dict built from an association list of literal entries: lookup
returns the value of the last entry with the given key (a repeated key in a
dict literal is overwritten by the later occurrence), modelled by folding
the entries in order with later matches overriding earlier ones. -/
def dictGet? (t : List (String × String)) (k : String) : Option String :=
  t.foldl (fun acc p => if p.1 == k then some p.2 else acc) none

/-- The apostrophe character, used by the Work Status warning text. -/
def squote : String := String.singleton (Char.ofNat 39)

/-! ## Field normalizers (amplify_census_input.py) -/

/-- The final step of _norm_zip, line 153: zfill(5) then take five
characters if the digit string is non-empty, else the empty string.  On a
digit-only input, zfill is a left pad with zero characters. -/
def zipPad (d : List Char) : String :=
  if d.isEmpty then ""
  else String.mk ((List.replicate (5 - d.length) '0' ++ d).take 5)

/-- _norm_zip, lines 146-153: strip, keep the part before the first hyphen,
keep digits only, left-pad with zeros to five and truncate to five; empty
digit string gives the empty result. -/
def _norm_zip (val : String) : String :=
  zipPad
    ((if (pstrip val.toList).contains '-'
      then (splitChar '-' (pstrip val.toList)).headD []
      else pstrip val.toList).filter Char.isDigit)

/-- _MEMBER_ALIASES, lines 171-175. -/
def memberAliases : List (String × String) :=
  [("EE", "EE"), ("E", "EE"), ("SUB", "EE"), ("SUBSCRIBER", "EE"), ("EMPLOYEE", "EE"),
   ("SP", "SP"), ("S", "SP"), ("SPOUSE", "SP"), ("DOMESTIC PARTNER", "SP"), ("DP", "SP"), ("PARTNER", "SP"),
   ("C", "CH"), ("CH", "CH"), ("CHILD", "CH"), ("CHILDREN", "CH"), ("KID", "CH"), ("DEPENDENT", "CH")]

/-- _norm_member, lines 176-183: empty gives empty, an alias maps through
the table, anything else becomes "EE". -/
def _norm_member (val : String) : String :=
  if (pstrip val.toList).isEmpty then ""
  else
    match dictGet? memberAliases (String.mk (pupper (pstrip val.toList))) with
    | some c => c
    | none => "EE"

/-- _COV_ALIASES, lines 186-197, in source order, with the duplicated
"EESPONLY" entry kept exactly as written. -/
def covAliases : List (String × String) :=
  [("E", "EE"), ("EO", "EE"), ("EMPLOYEE", "EE"), ("EMPLOYEE ONLY", "EE"), ("EEONLY", "EE"), ("EE ONLY", "EE"), ("EE", "EE"),
   ("ES", "ES"), ("EMPLOYEE + SPOUSE", "ES"), ("EE + SPOUSE", "ES"), ("EESPONLY", "ES"), ("EES PONLY", "ES"), ("EESPONLY", "ES"),
   ("EC", "EC"), ("EMPLOYEE + CHILD", "EC"), ("EMPLOYEE + CHILDREN", "EC"), ("EE + CHILD", "EC"), ("EE + CHILDREN", "EC"), ("EECHREN", "EC"),
   ("F", "FAM"), ("FAM", "FAM"), ("FAMILY", "FAM"), ("EE + FAMILY", "FAM"), ("EE&FAMILY", "FAM"),
   ("WO", "WO"), ("WAIVE", "WO"), ("WAIVED", "WO"), ("WAV", "WO"), ("NONE", "WO"), ("NO COVERAGE", "WO")]

/-- The five canonical coverage codes. -/
def covCodes : List String := ["EE", "EC", "ES", "FAM", "WO"]

/-- Trim whitespace at the left end of a piece (used around a plus sign). -/
def pltrim (l : List Char) : List Char := l.dropWhile isSpaceChar

/-- Trim whitespace at the right end of a piece. -/
def prtrim (l : List Char) : List Char := (l.reverse.dropWhile isSpaceChar).reverse

/-- For the pieces after the first plus sign: trim the left of every piece
and the right of every piece except the last. -/
def midTrim : List (List Char) → List (List Char)
  | [] => []
  | [p] => [pltrim p]
  | p :: ps => pltrim (prtrim p) :: midTrim ps

/-- The regex substitution sub(backslash-s* plus backslash-s*, " + ", s) of
line 202: rewrite every plus sign together with the whitespace around it to
a plus sign with single spaces around it.  Equivalently: split on the plus
signs, trim whitespace of each piece on the sides adjacent to a plus sign,
and rejoin with " + ". -/
def plusSpacing (l : List Char) : List Char :=
  match splitChar '+' l with
  | [] => l
  | [_] => l
  | p :: ps => List.intercalate [' ', '+', ' '] (prtrim p :: midTrim ps)

/-- The cleaned key that _norm_coverage looks up, lines 201-203: strip and
uppercase, normalize plus spacing, then replace every ampersand by a plus
sign (a one-character replace is a character map). -/
def covClean (val : String) : String :=
  String.mk ((plusSpacing (pupper (pstrip val.toList))).map (fun c => if c = '&' then '+' else c))

/-- _norm_coverage, lines 198-204: empty gives empty; otherwise look the
cleaned key up in the alias table, with pass-through of the five canonical
codes as the dict-get default. -/
def _norm_coverage (val : String) : String :=
  if (pstrip val.toList).isEmpty then ""
  else
    match dictGet? covAliases (covClean val) with
    | some c => c
    | none => if covClean val ∈ covCodes then covClean val else ""

/-- The warning text of line 214, with val interpolated between apostrophes. -/
def statusMsg (val : String) : String :=
  "Ignored non-supported Work Status " ++ squote ++ val ++ squote ++ " (only Active/Cobra kept)"

/-- _ALLOWED_STATUS, line 207. -/
def allowedStatus : List (String × String) := [("ACTIVE", "Active"), ("COBRA", "Cobra")]

/-- _norm_status, lines 208-214: returns the normalized value and a warning
message, the warning being empty when no value is ignored. -/
def _norm_status (val : String) : String × String :=
  if (pstrip val.toList).isEmpty then ("", "")
  else
    match dictGet? allowedStatus (String.mk (pupper (pstrip val.toList))) with
    | some c => (c, "")
    | none => ("", statusMsg val)

/-! ## Name splitting (_split_full_name, lines 104-141) -/

/-- _SUFFIXES, line 104. -/
def suffixSet : List (List Char) :=
  ["JR".toList, "SR".toList, "II".toList, "III".toList, "IV".toList, "V".toList]

/-- Whether a token is a generational suffix: uppercase it, strip periods,
and test membership in the suffix set (line 125). -/
def isSuffixTok (t : List Char) : Bool := suffixSet.contains (stripDots (pupper t))

/-- Line 127: the last name assembled from the part before the comma, the
middle tokens and the suffix tokens, joined with spaces; when there is
nothing to add, the part before the comma alone. -/
def joinLast (last : List Char) (middle suffix : List (List Char)) : List Char :=
  if middle.isEmpty && suffix.isEmpty then last
  else List.intercalate [' '] (last :: (middle ++ suffix))

/-- The comma branch after the split, lines 120-128, applied to the stripped
part before the comma and the stripped rest.  In the source, middle is the
list of tail tokens not contained in the suffix list; since a token equal to
a suffix-list member itself satisfies the suffix predicate, this is the same
as filtering with the negated predicate. -/
def commaTail (last rest : List Char) : String × String × List String :=
  match pwsplit rest with
  | [] => ("", String.mk last, ["Full Name split yielded empty first name"])
  | f :: tl =>
    (String.mk f,
     String.mk (joinLast last (tl.filter (fun t => !(isSuffixTok t))) (tl.filter isSuffixTok)),
     [])

/-- The comma branch, lines 119-128: split on the first comma (split once is
the head piece and the remaining pieces rejoined on commas), strip both
parts. -/
def commaCase (s : List Char) : String × String × List String :=
  match splitChar ',' s with
  | [] => ("", "", [])
  | lastP :: restPs =>
    commaTail (pstrip lastP) (pstrip (List.intercalate [','] restPs))

/-- The no-comma branch, lines 131-141. -/
def noCommaCase (s : List Char) : String × String × List String :=
  match pwsplit s with
  | [] => ("", "", [])
  | [t] => ("", String.mk t, ["Full Name has single token; treated as last name"])
  | f :: tl =>
    let suffix := tl.filter isSuffixTok
    let core := tl.filter (fun t => !(isSuffixTok t))
    if core.isEmpty then
      (String.mk f, String.mk (List.intercalate [' '] suffix), ["Name missing core last name; suffix only"])
    else
      (String.mk f, String.mk (List.intercalate [' '] (core ++ suffix)), [])

/-- _split_full_name, lines 106-141: returns (first, last, warnings). -/
def _split_full_name (name : String) : String × String × List String :=
  if (pstrip name.toList).isEmpty then ("", "", [])
  else if (pstrip name.toList).contains ',' then commaCase (pstrip name.toList)
  else noCommaCase (pstrip name.toList)

/-! ## Data model -/

/-- A fully normalized canonical record, the ten standard columns of
STANDARD_COLS (lines 14-25). -/
structure Row where
  firstName : String
  lastName : String
  gender : String
  dob : String
  homeZip : String
  memberType : String
  coverageTier : String
  workStatus : String
  workZip : String
  plan : String
deriving DecidableEq, Repr

/-- A record at the pipeline point of line 312: every field normalized
except Work Status, which still carries its raw cell text. -/
structure MidRow where
  firstName : String
  lastName : String
  gender : String
  dob : String
  homeZip : String
  memberType : String
  coverageTier : String
  workStatusRaw : String
  workZip : String
  plan : String
deriving DecidableEq, Repr

/-- One record of the issues table: Row, First Name, Last Name, Issues. -/
structure Issue where
  row : Nat
  firstName : String
  lastName : String
  issues : String
deriving DecidableEq, Repr

/-- A default record used with positional getD lookups. -/
def dRow : Row := ⟨"", "", "", "", "", "", "", "", "", ""⟩

/-- A default mid-pipeline record. -/
def dMid : MidRow := ⟨"", "", "", "", "", "", "", "", "", ""⟩

/-! ## Work Status pass and validation (lines 312-374) -/

/-- Install the normalized Work Status value into a record (line 325). -/
def applyStatus (m : MidRow) (st : String) : Row :=
  ⟨m.firstName, m.lastName, m.gender, m.dob, m.homeZip, m.memberType,
   m.coverageTier, st, m.workZip, m.plan⟩

/-- The Work Status loop of lines 313-325, started at position i: normalize
each Work Status cell, and record an issue at spreadsheet row i + 2 whenever
the normalizer reports a non-empty warning. -/
def statusPassFrom : Nat → List MidRow → List Row × List Issue
  | _, [] => ([], [])
  | i, m :: ms =>
    (applyStatus m (_norm_status m.workStatusRaw).1 :: (statusPassFrom (i + 1) ms).1,
     (if (_norm_status m.workStatusRaw).2 = "" then []
      else [⟨i + 2, m.firstName, m.lastName, (_norm_status m.workStatusRaw).2⟩]) ++
       (statusPassFrom (i + 1) ms).2)

/-- The Work Status pass over the whole table. -/
def statusPass (ms : List MidRow) : List Row × List Issue := statusPassFrom 0 ms

/-- The per-row rule evaluation of lines 331-357, accumulating the messages
in source order. -/
def rowIssues (r : Row) : List String :=
  (if r.firstName = "" then ["Missing First Name"] else []) ++
  (if r.lastName = "" then ["Missing Last Name"] else []) ++
  (if r.memberType ∈ (["EE", "SP", "CH"] : List String) then [] else ["Member Type must be EE/SP/CH"]) ++
  (if r.coverageTier ∈ (["EE", "EC", "ES", "FAM", "WO", ""] : List String) then [] else ["Coverage Tier invalid"]) ++
  (if r.memberType = "EE" then
    (if r.dob = "" then ["Subscriber missing DOB"] else []) ++
    (if r.homeZip = "" then ["Subscriber missing Home Zip"] else [])
   else []) ++
  (if r.memberType ≠ "EE" ∧ r.workStatus ≠ "" then ["Work Status should be blank for non-EE"] else [])

/-- The issue record built at line 360: spreadsheet row i + 2, the
normalized names, and the messages joined with a semicolon and a space. -/
def mkIssue (i : Nat) (r : Row) (msgs : List String) : Issue :=
  ⟨i + 2, r.firstName, r.lastName, String.intercalate "; " msgs⟩

/-- The validation loop of lines 331-365 started at position i: one record
per row whose rule evaluation is non-empty. -/
def validationIssuesFrom : Nat → List Row → List Issue
  | _, [] => []
  | i, r :: rs =>
    (if rowIssues r = [] then [] else [mkIssue i r (rowIssues r)]) ++
    validationIssuesFrom (i + 1) rs

/-- Validation over the whole normalized table. -/
def validationIssues (rows : List Row) : List Issue := validationIssuesFrom 0 rows

/-- The tail of normalize_and_validate from line 312: run the Work Status
pass, then assemble the issues list as split warnings, then row validation
records, then Work Status ignore warnings (lines 328-368), returning the
canonical table and the issues table. -/
def normalizeAndValidateCore (splitWarnings : List Issue) (ms : List MidRow) :
    List Row × List Issue :=
  let p := statusPass ms
  (p.1, splitWarnings ++ validationIssues p.1 ++ p.2)

/-! ## Canonical column schema (_ensure_all_cols, lines 249-253) -/

/-- STANDARD_COLS, lines 14-25. -/
def STANDARD_COLS : List String :=
  ["First Name", "Last Name", "Gender", "Date of Birth", "Home Zip Code",
   "Member Type", "Coverage Tier", "Work Status", "Work Zip", "Current Medical Plan"]

/-- _ensure_all_cols on a column-oriented table of n rows: every standard
column missing from the table is created filled with empty strings, and the
result is the selection of exactly the standard columns in their fixed
order. -/
def _ensure_all_cols (n : Nat) (cols : List (String × List String)) :
    List (String × List String) :=
  STANDARD_COLS.map (fun name =>
    (name, ((cols.find? (fun c => c.1 == name)).map (fun c => c.2)).getD (List.replicate n "")))

/-! ## Output projector (export_aetna_afa.py) -/

/-- AETNA_TIER_MAP, lines 22-28. -/
def AETNA_TIER_MAP : List (String × String) :=
  [("EE", "EEOnly"), ("ES", "EESpOnly"), ("EC", "EEChren"), ("FAM", "EEFamily"), ("WO", "Waive")]

/-- The tier-map dict .get with default "" (line 94). -/
def aetnaTier (s : String) : String := (dictGet? AETNA_TIER_MAP s).getD ""

/-- The medical-tier forward pass of lines 90-98, carrying the tier of the
most recently seen subscriber. -/
def medFrom (last : String) : List Row → List String
  | [] => []
  | r :: rs =>
    if r.memberType = "EE" then
      let t := aetnaTier r.coverageTier
      t :: medFrom t rs
    else
      last :: medFrom last rs

/-- The Medical Tier column: the forward pass started with the empty
default. -/
def medList (rows : List Row) : List String := medFrom "" rows

/-- The Subscriber Employment Status column of lines 115-117: the Work
Status where the member type is EE, else empty. -/
def sesList (rows : List Row) : List String :=
  rows.map (fun r => if r.memberType = "EE" then r.workStatus else "")

/-- total_employees, line 101: the number of rows whose Member Type is EE. -/
def totalEmployees (rows : List Row) : Nat :=
  (rows.filter (fun r => r.memberType == "EE")).length

/-- waived_ee, line 102: the number of positions that are an EE row and
whose entry of the medical-tier column is Waive. -/
def waivedEE (rows : List Row) : Nat :=
  ((rows.zip (medList rows)).filter (fun p => p.1.memberType == "EE" && p.2 == "Waive")).length

/-- total_enrolled, line 103: employees minus waived, clamped at zero, as a
Python int. -/
def totalEnrolled (rows : List Row) : Int :=
  max ((totalEmployees rows : Int) - (waivedEE rows : Int)) 0

/-- The tier of the most recently seen subscriber among the first i rows,
the accumulator of the forward pass read off at position i. -/
def lastSubTier (rows : List Row) (init : String) : String :=
  rows.foldl (fun acc r => if r.memberType = "EE" then aetnaTier r.coverageTier else acc) init

/-! ## Dictionary lemmas -/

/-- Folding lookup entries whose keys all differ from k leaves the
accumulator unchanged. -/
theorem dictFold_skip (k : String) (t : List (String × String)) :
    ∀ acc : Option String, k ∉ t.map Prod.fst →
    t.foldl (fun acc p => if p.1 == k then some p.2 else acc) acc = acc := by
  induction t with
  | nil => intro acc _; rfl
  | cons e t ih =>
    intro acc h
    simp only [List.map_cons, List.mem_cons, not_or] at h
    simp only [List.foldl_cons]
    rw [if_neg (by simpa using fun he => h.1 he.symm)]
    exact ih acc (by simpa using h.2)

/-- A key absent from the entry list is not found. -/
theorem dictGet_eq_none (t : List (String × String)) (k : String)
    (h : k ∉ t.map Prod.fst) : dictGet? t k = none :=
  dictFold_skip k t none h

/-- The lookup fold returns the accumulator or one of the entry values. -/
theorem dictFold_mem_values (k c : String) (t : List (String × String)) :
    ∀ acc : Option String,
    t.foldl (fun acc p => if p.1 == k then some p.2 else acc) acc = some c →
    acc = some c ∨ c ∈ t.map Prod.snd := by
  induction t with
  | nil => intro acc h; exact Or.inl h
  | cons e t ih =>
    intro acc h
    simp only [List.foldl_cons] at h
    rcases ih _ h with hacc | hmem
    · by_cases he : (e.1 == k) = true
      · rw [if_pos he] at hacc
        right
        simp only [List.map_cons, List.mem_cons]
        exact Or.inl (Option.some.inj hacc).symm
      · rw [if_neg he] at hacc
        exact Or.inl hacc
    · right
      simp only [List.map_cons, List.mem_cons]
      exact Or.inr hmem

/-- A found value is one of the values of the entry list. -/
theorem dictGet_mem_values (t : List (String × String)) (k c : String)
    (h : dictGet? t k = some c) : c ∈ t.map Prod.snd := by
  rcases dictFold_mem_values k c t none h with hacc | hmem
  · exact Option.noConfusion hacc
  · exact hmem

/-! ## Claim C8: ZIP normalization -/

/-- A non-empty digit string pads and truncates to exactly five characters. -/
theorem zipPad_length (d : List Char) (h : d ≠ []) : (zipPad d).length = 5 := by
  unfold zipPad
  rw [if_neg (by simpa using h)]
  show (String.mk _).length = 5
  simp [String.length, List.length_take, List.length_append, List.length_replicate]
  omega

/-- C8: the ZIP normalizer keeps only the portion before the first hyphen,
strips non-digit characters, zero-pads and truncates to five digits; the
empty input gives the empty string; the sample inputs behave as specified
and every result has length five or zero. -/
theorem claim_C8 (s : String) :
    (_norm_zip "" = "" ∧ _norm_zip "12345-6789" = "12345" ∧ _norm_zip "7" = "00007") ∧
    (_norm_zip s = "" ∨ (_norm_zip s).length = 5) ∧
    ((pstrip s.toList).contains '-' = true →
      _norm_zip s = zipPad (((splitChar '-' (pstrip s.toList)).headD []).filter Char.isDigit)) ∧
    ((pstrip s.toList).contains '-' = false →
      _norm_zip s = zipPad ((pstrip s.toList).filter Char.isDigit)) ∧
    (∀ d : List Char, d ≠ [] → (zipPad d).length = 5) ∧ zipPad [] = "" := by
  refine ⟨⟨by decide, by decide, by decide⟩, ?_, ?_, ?_, zipPad_length, by decide⟩
  · unfold _norm_zip
    rcases hd : (if (pstrip s.toList).contains '-' = true
        then (splitChar '-' (pstrip s.toList)).headD []
        else pstrip s.toList).filter Char.isDigit with _ | _
    · left; decide
    · right; exact zipPad_length _ (by simp)
  · intro h
    unfold _norm_zip
    rw [if_pos h]
  · intro h
    unfold _norm_zip
    rw [if_neg (by rw [h]; exact Bool.false_ne_true)]

/-- C8 witness: the hyphen clause applied at the ZIP+4 sample. -/
theorem claim_C8_witness :
    _norm_zip "12345-6789" =
      zipPad (((splitChar '-' (pstrip "12345-6789".toList)).headD []).filter Char.isDigit) :=
  (claim_C8 "12345-6789").2.2.1 (by decide)

/-! ## Claim C7: Member Type normalization -/

/-- C7: Member Type normalization is a case-insensitive alias lookup with
the listed EE, SP and CH alias sets, any unknown non-empty value defaults to
EE, and the empty value stays empty. -/
theorem claim_C7 (v : String) :
    ((pstrip v.toList).isEmpty = true → _norm_member v = "") ∧
    (String.mk (pupper (pstrip v.toList)) ∈
        (["EE", "E", "SUB", "SUBSCRIBER", "EMPLOYEE"] : List String) → _norm_member v = "EE") ∧
    (String.mk (pupper (pstrip v.toList)) ∈
        (["SP", "S", "SPOUSE", "DOMESTIC PARTNER", "DP", "PARTNER"] : List String) →
      _norm_member v = "SP") ∧
    (String.mk (pupper (pstrip v.toList)) ∈
        (["C", "CH", "CHILD", "CHILDREN", "KID", "DEPENDENT"] : List String) →
      _norm_member v = "CH") ∧
    ((pstrip v.toList).isEmpty = false →
      String.mk (pupper (pstrip v.toList)) ∉ memberAliases.map Prod.fst → _norm_member v = "EE") ∧
    (_norm_member "spouse" = "SP" ∧ _norm_member "Domestic Partner" = "SP" ∧
     _norm_member "Janitor" = "EE" ∧ _norm_member "" = "" ∧ _norm_member "KID" = "CH") := by
  have hmkempty : (pstrip v.toList).isEmpty = true →
      String.mk (pupper (pstrip v.toList)) = "" := by
    intro h
    rw [List.isEmpty_iff.mp h]
    rfl
  have key : ∀ c : String,
      dictGet? memberAliases (String.mk (pupper (pstrip v.toList))) = some c →
      _norm_member v = c := by
    intro c hd
    unfold _norm_member
    cases he : (pstrip v.toList).isEmpty with
    | true =>
      rw [hmkempty he, show dictGet? memberAliases "" = none from by decide] at hd
      exact Option.noConfusion hd
    | false =>
      rw [if_neg Bool.false_ne_true]
      rw [hd]
  refine ⟨?_, ?_, ?_, ?_, ?_, by decide, by decide, by decide, by decide, by decide⟩
  · intro h
    unfold _norm_member
    rw [if_pos h]
  · intro h
    simp only [List.mem_cons, List.not_mem_nil, or_false] at h
    rcases h with h | h | h | h | h <;> exact key _ (by rw [h]; decide)
  · intro h
    simp only [List.mem_cons, List.not_mem_nil, or_false] at h
    rcases h with h | h | h | h | h | h <;> exact key _ (by rw [h]; decide)
  · intro h
    simp only [List.mem_cons, List.not_mem_nil, or_false] at h
    rcases h with h | h | h | h | h | h <;> exact key _ (by rw [h]; decide)
  · intro h hnm
    unfold _norm_member
    rw [if_neg (by rw [h]; exact Bool.false_ne_true)]
    rw [dictGet_eq_none _ _ hnm]

/-- C7 witness: an unknown non-empty label defaults to EE. -/
theorem claim_C7_witness : _norm_member "Janitor" = "EE" :=
  (claim_C7 "Janitor").2.2.2.2.1 (by decide) (by decide)

/-! ## Claim C6: Work Status normalization and its warning records -/

/-- Every Work Status ignore-warning reaches the issues list of the status
pass, at the spreadsheet row of its table position. -/
theorem statusPassFrom_mem (ms : List MidRow) : ∀ (i j : Nat), j < ms.length →
    (_norm_status (ms.getD j dMid).workStatusRaw).2 ≠ "" →
    (⟨i + j + 2, (ms.getD j dMid).firstName, (ms.getD j dMid).lastName,
      (_norm_status (ms.getD j dMid).workStatusRaw).2⟩ : Issue) ∈ (statusPassFrom i ms).2 := by
  induction ms with
  | nil =>
    intro i j hj
    exact absurd hj (by simp)
  | cons m ms ih =>
    intro i j hj hne
    cases j with
    | zero =>
      simp only [List.getD_cons_zero] at hne ⊢
      unfold statusPassFrom
      rw [if_neg hne]
      exact List.mem_append_left _ (by simp)
    | succ j =>
      simp only [List.getD_cons_succ] at hne ⊢
      unfold statusPassFrom
      apply List.mem_append_right
      have heq : i + 1 + j + 2 = i + (j + 1) + 2 := by omega
      exact heq ▸ ih (i + 1) j (by simpa using Nat.lt_of_succ_lt_succ hj) hne

/-- A one-row scenario whose only problem is a Retired work status. -/
def c6Mid : MidRow := ⟨"Ann", "Lee", "F", "01/01/1980", "12345", "EE", "EE", "Retired", "", ""⟩

/-- The normalized form of the scenario row: the status has been blanked. -/
def c6Row : Row := ⟨"Ann", "Lee", "F", "01/01/1980", "12345", "EE", "EE", "", "", ""⟩

/-- C6: Work Status keeps only Active and Cobra under case-insensitive exact
match; any other non-empty value is blanked and produces a warning that
names the original value, and that warning lands in the issues table as its
own record even for an otherwise clean row; empty input stays empty with no
warning. -/
theorem claim_C6 (v : String) (ms : List MidRow) (j : Nat) :
    ((pstrip v.toList).isEmpty = true → _norm_status v = ("", "")) ∧
    (String.mk (pupper (pstrip v.toList)) = "ACTIVE" → _norm_status v = ("Active", "")) ∧
    (String.mk (pupper (pstrip v.toList)) = "COBRA" → _norm_status v = ("Cobra", "")) ∧
    ((pstrip v.toList).isEmpty = false →
      String.mk (pupper (pstrip v.toList)) ∉ (["ACTIVE", "COBRA"] : List String) →
      _norm_status v = ("", statusMsg v)) ∧
    (statusMsg v =
      "Ignored non-supported Work Status " ++ squote ++ v ++ squote ++ " (only Active/Cobra kept)") ∧
    (j < ms.length → (_norm_status (ms.getD j dMid).workStatusRaw).2 ≠ "" →
      (⟨j + 2, (ms.getD j dMid).firstName, (ms.getD j dMid).lastName,
        (_norm_status (ms.getD j dMid).workStatusRaw).2⟩ : Issue) ∈
          (normalizeAndValidateCore [] ms).2) ∧
    (normalizeAndValidateCore [] [c6Mid] =
      ([c6Row], [⟨2, "Ann", "Lee", statusMsg "Retired"⟩])) := by
  have hmkempty : (pstrip v.toList).isEmpty = true →
      String.mk (pupper (pstrip v.toList)) = "" := by
    intro h
    rw [List.isEmpty_iff.mp h]
    rfl
  have key : ∀ c : String,
      dictGet? allowedStatus (String.mk (pupper (pstrip v.toList))) = some c →
      _norm_status v = (c, "") := by
    intro c hd
    unfold _norm_status
    cases he : (pstrip v.toList).isEmpty with
    | true =>
      rw [hmkempty he, show dictGet? allowedStatus "" = none from by decide] at hd
      exact Option.noConfusion hd
    | false =>
      rw [if_neg Bool.false_ne_true]
      rw [hd]
  refine ⟨?_, ?_, ?_, ?_, rfl, ?_, by decide⟩
  · intro h
    unfold _norm_status
    rw [if_pos h]
  · intro h
    exact key _ (by rw [h]; decide)
  · intro h
    exact key _ (by rw [h]; decide)
  · intro h hnm
    unfold _norm_status
    rw [if_neg (by rw [h]; exact Bool.false_ne_true)]
    rw [dictGet_eq_none _ _ hnm]
  · intro hj hne
    unfold normalizeAndValidateCore
    apply List.mem_append_right
    have := statusPassFrom_mem ms 0 j hj hne
    simpa [statusPass] using this

/-- C6 witness: the Retired scenario, instantiating the in-table clause at
the one-row list. -/
theorem claim_C6_witness :
    (⟨2, "Ann", "Lee", (_norm_status (([c6Mid] : List MidRow).getD 0 dMid).workStatusRaw).2⟩ : Issue) ∈
      (normalizeAndValidateCore [] [c6Mid]).2 := by
  have h := (claim_C6 "Retired" [c6Mid] 0).2.2.2.2.2.1 (by decide) (by decide)
  simpa using h

/-! ## Claim C2: Coverage Tier normalization -/

/-- The coverage alias table with the duplicated "EESPONLY" entry removed. -/
def covAliasesDedup : List (String × String) :=
  [("E", "EE"), ("EO", "EE"), ("EMPLOYEE", "EE"), ("EMPLOYEE ONLY", "EE"), ("EEONLY", "EE"), ("EE ONLY", "EE"), ("EE", "EE"),
   ("ES", "ES"), ("EMPLOYEE + SPOUSE", "ES"), ("EE + SPOUSE", "ES"), ("EESPONLY", "ES"), ("EES PONLY", "ES"),
   ("EC", "EC"), ("EMPLOYEE + CHILD", "EC"), ("EMPLOYEE + CHILDREN", "EC"), ("EE + CHILD", "EC"), ("EE + CHILDREN", "EC"), ("EECHREN", "EC"),
   ("F", "FAM"), ("FAM", "FAM"), ("FAMILY", "FAM"), ("EE + FAMILY", "FAM"), ("EE&FAMILY", "FAM"),
   ("WO", "WO"), ("WAIVE", "WO"), ("WAIVED", "WO"), ("WAV", "WO"), ("NONE", "WO"), ("NO COVERAGE", "WO")]

/-- The entries of the coverage table before the duplicated key. -/
def covPre : List (String × String) :=
  [("E", "EE"), ("EO", "EE"), ("EMPLOYEE", "EE"), ("EMPLOYEE ONLY", "EE"), ("EEONLY", "EE"), ("EE ONLY", "EE"), ("EE", "EE"),
   ("ES", "ES"), ("EMPLOYEE + SPOUSE", "ES"), ("EE + SPOUSE", "ES"), ("EESPONLY", "ES"), ("EES PONLY", "ES")]

/-- The entries of the coverage table after the duplicated key. -/
def covPost : List (String × String) :=
  [("EC", "EC"), ("EMPLOYEE + CHILD", "EC"), ("EMPLOYEE + CHILDREN", "EC"), ("EE + CHILD", "EC"), ("EE + CHILDREN", "EC"), ("EECHREN", "EC"),
   ("F", "FAM"), ("FAM", "FAM"), ("FAMILY", "FAM"), ("EE + FAMILY", "FAM"), ("EE&FAMILY", "FAM"),
   ("WO", "WO"), ("WAIVE", "WO"), ("WAIVED", "WO"), ("WAV", "WO"), ("NONE", "WO"), ("NO COVERAGE", "WO")]

/-- The duplicated "EESPONLY" entry changes no lookup: the table behaves
exactly like the deduplicated table on every key. -/
theorem covDup (k : String) : dictGet? covAliases k = dictGet? covAliasesDedup k := by
  by_cases hk : k = "EESPONLY"
  · subst hk
    decide
  · have h1 : covAliases = covPre ++ ("EESPONLY", "ES") :: covPost := by decide
    have h2 : covAliasesDedup = covPre ++ covPost := by decide
    unfold dictGet?
    rw [h1, h2, List.foldl_append, List.foldl_append, List.foldl_cons]
    rw [if_neg (by simpa using fun he => hk he.symm)]

/-- C2 counterexample: "EE&FAMILY" is itself a key of the alias table, yet
the normalizer sends it to the empty string, not to a code of the table. -/
theorem claim_C2_counterexample :
    _norm_coverage "EE&FAMILY" = "" ∧
    "EE&FAMILY" ∈ covAliases.map Prod.fst ∧
    "" ∉ covCodes := by
  refine ⟨by decide, by decide, by decide⟩

/-- C2 (amended): matching is case-insensitive with plus-spacing
normalization followed by ampersand-to-plus replacement; a value whose
cleaned uppercase form is a key of the alias table maps to the code of that key
in the five codes; the five codes pass through; a non-empty value whose
cleaned form is not a key, and the empty value, map to the empty string;
"EE&FAMILY" cleans to "EE+FAMILY", which is not a key, so it maps to the
empty string (the "EE&FAMILY" table entry is unreachable); the duplicated
"EESPONLY" entry changes no mapping. -/
theorem claim_C2 (v : String) :
    (∀ c, dictGet? covAliases (covClean v) = some c → _norm_coverage v = c ∧ c ∈ covCodes) ∧
    (∀ k ∈ covCodes, _norm_coverage k = k) ∧
    ((pstrip v.toList).isEmpty = false → dictGet? covAliases (covClean v) = none →
      _norm_coverage v = "") ∧
    ((pstrip v.toList).isEmpty = true → _norm_coverage v = "") ∧
    (_norm_coverage "Employee + Spouse" = "ES" ∧ _norm_coverage "EESPONLY" = "ES" ∧
     _norm_coverage "WAIVED" = "WO" ∧ _norm_coverage "NO COVERAGE" = "WO" ∧
     _norm_coverage "EE&FAMILY" = "" ∧ covClean "EE&FAMILY" = "EE+FAMILY" ∧
     "EE+FAMILY" ∉ covAliases.map Prod.fst) ∧
    (∀ k, dictGet? covAliases k = dictGet? covAliasesDedup k) := by
  have hclempty : (pstrip v.toList).isEmpty = true → covClean v = "" := by
    intro h
    unfold covClean
    rw [List.isEmpty_iff.mp h]
    rfl
  refine ⟨?_, ?_, ?_, ?_,
    ⟨by decide, by decide, by decide, by decide, by decide, by decide, by decide⟩, covDup⟩
  · intro c hd
    constructor
    · unfold _norm_coverage
      cases he : (pstrip v.toList).isEmpty with
      | true =>
        rw [hclempty he, show dictGet? covAliases "" = none from by decide] at hd
        exact Option.noConfusion hd
      | false =>
        rw [if_neg Bool.false_ne_true]
        rw [hd]
    · have hv := dictGet_mem_values _ _ _ hd
      have hall : ∀ x ∈ covAliases.map Prod.snd, x ∈ covCodes := by decide
      exact hall c hv
  · intro k hk
    simp only [covCodes, List.mem_cons, List.not_mem_nil, or_false] at hk
    rcases hk with h | h | h | h | h <;> subst h <;> decide
  · intro he hd
    unfold _norm_coverage
    rw [if_neg (by rw [he]; exact Bool.false_ne_true)]
    rw [hd]
    rw [if_neg ?hnc]
    case hnc =>
      intro hmem
      simp only [covCodes, List.mem_cons, List.not_mem_nil, or_false] at hmem
      rcases hmem with h | h | h | h | h <;> rw [h] at hd <;> exact absurd hd (by decide)
  · intro he
    unfold _norm_coverage
    rw [if_pos he]

/-- C2 witness: the key-lookup clause applied at "WAIVED". -/
theorem claim_C2_witness : _norm_coverage "WAIVED" = "WO" ∧ "WO" ∈ covCodes :=
  (claim_C2 "WAIVED").1 "WO" (by decide)

/-! ## Claim C1: the projected Medical Tier and Subscriber Employment Status -/

/-- Position i of the forward pass: an EE row carries its own mapped tier,
any other row carries the tier of the last subscriber seen among the
earlier rows (the accumulator value at that point). -/
theorem medFrom_getD : ∀ (rows : List Row) (init : String) (i : Nat), i < rows.length →
    (medFrom init rows).getD i "" =
      (if (rows.getD i dRow).memberType = "EE" then aetnaTier (rows.getD i dRow).coverageTier
       else lastSubTier (rows.take i) init) := by
  intro rows
  induction rows with
  | nil =>
    intro init i hi
    exact absurd hi (by simp)
  | cons r rs ih =>
    intro init i hi
    cases i with
    | zero =>
      simp only [List.getD_cons_zero, List.take_zero]
      unfold medFrom
      by_cases hr : r.memberType = "EE"
      · rw [if_pos hr, List.getD_cons_zero, if_pos hr]
      · rw [if_neg hr, List.getD_cons_zero, if_neg hr]
        rfl
    | succ i =>
      simp only [List.getD_cons_succ, List.take_succ_cons]
      unfold medFrom
      have hlt : i < rs.length := by simpa using Nat.lt_of_succ_lt_succ hi
      by_cases hr : r.memberType = "EE"
      · rw [if_pos hr, List.getD_cons_succ, ih (aetnaTier r.coverageTier) i hlt]
        have hstep : lastSubTier (r :: rs.take i) init =
            lastSubTier (rs.take i) (aetnaTier r.coverageTier) := by
          simp only [lastSubTier, List.foldl_cons]
          rw [if_pos hr]
        rw [hstep]
      · rw [if_neg hr, List.getD_cons_succ, ih init i hlt]
        have hstep : lastSubTier (r :: rs.take i) init = lastSubTier (rs.take i) init := by
          simp only [lastSubTier, List.foldl_cons]
          rw [if_neg hr]
        rw [hstep]

/-- The Subscriber Employment Status column at position i. -/
theorem sesList_getD : ∀ (rows : List Row) (i : Nat), i < rows.length →
    (sesList rows).getD i "" =
      (if (rows.getD i dRow).memberType = "EE" then (rows.getD i dRow).workStatus else "") := by
  intro rows
  induction rows with
  | nil =>
    intro i hi
    exact absurd hi (by simp)
  | cons r rs ih =>
    intro i hi
    cases i with
    | zero => simp [sesList]
    | succ i =>
      have hlt : i < rs.length := by simpa using Nat.lt_of_succ_lt_succ hi
      simpa [sesList] using ih i hlt

/-- With no subscriber among the rows, the accumulator never moves. -/
theorem lastSubTier_no_EE : ∀ (l : List Row) (init : String),
    (∀ r ∈ l, r.memberType ≠ "EE") → lastSubTier l init = init := by
  intro l
  induction l with
  | nil => intro init _; rfl
  | cons r rs ih =>
    intro init h
    have hr := h r (by simp)
    show List.foldl _ _ (r :: rs) = init
    rw [List.foldl_cons, if_neg hr]
    exact ih init (fun x hx => h x (by simp [hx]))

/-- The end-to-end scenario rows: one EE family subscriber and two children. -/
def c1r1 : Row := ⟨"A", "B", "M", "01/01/1980", "12345", "EE", "FAM", "Active", "", ""⟩

/-- First child row of the scenario. -/
def c1r2 : Row := ⟨"C", "B", "F", "01/01/2010", "12345", "CH", "", "", "", ""⟩

/-- Second child row of the scenario. -/
def c1r3 : Row := ⟨"D", "B", "M", "01/02/2012", "12345", "CH", "", "", "", ""⟩

/-- C1: the projector computes Medical Tier in one forward pass (an EE row
maps its Coverage Tier through the fixed tier table and becomes the current
subscriber tier, any other row inherits the most recent subscriber tier,
and a dependent before every subscriber gets the empty string), and
Subscriber Employment Status is the Work Status for EE rows and empty
otherwise. -/
theorem claim_C1 (rows : List Row) (i : Nat) (h : i < rows.length) :
    ((medList rows).getD i "" =
      (if (rows.getD i dRow).memberType = "EE" then aetnaTier (rows.getD i dRow).coverageTier
       else lastSubTier (rows.take i) "")) ∧
    ((∀ r ∈ rows.take i, r.memberType ≠ "EE") → (rows.getD i dRow).memberType ≠ "EE" →
      (medList rows).getD i "" = "") ∧
    ((sesList rows).getD i "" =
      (if (rows.getD i dRow).memberType = "EE" then (rows.getD i dRow).workStatus else "")) ∧
    (aetnaTier "EE" = "EEOnly" ∧ aetnaTier "ES" = "EESpOnly" ∧ aetnaTier "EC" = "EEChren" ∧
     aetnaTier "FAM" = "EEFamily" ∧ aetnaTier "WO" = "Waive" ∧ aetnaTier "" = "") ∧
    (∀ s, s ∉ AETNA_TIER_MAP.map Prod.fst → aetnaTier s = "") ∧
    (medList [c1r1, c1r2, c1r3] = ["EEFamily", "EEFamily", "EEFamily"] ∧
     sesList [c1r1, c1r2, c1r3] = ["Active", "", ""]) := by
  refine ⟨medFrom_getD rows "" i h, ?_, sesList_getD rows i h,
    ⟨by decide, by decide, by decide, by decide, by decide, by decide⟩, ?_, by decide, by decide⟩
  · intro hpre hcur
    show (medFrom "" rows).getD i "" = ""
    rw [medFrom_getD rows "" i h, if_neg hcur]
    exact lastSubTier_no_EE _ "" hpre
  · intro s hs
    unfold aetnaTier
    rw [dictGet_eq_none _ _ hs]
    rfl

/-- C1 witness: the scenario applied at its first row. -/
theorem claim_C1_witness :
    (medList [c1r1, c1r2, c1r3]).getD 0 "" =
      (if (([c1r1, c1r2, c1r3] : List Row).getD 0 dRow).memberType = "EE"
       then aetnaTier (([c1r1, c1r2, c1r3] : List Row).getD 0 dRow).coverageTier
       else lastSubTier (([c1r1, c1r2, c1r3] : List Row).take 0) "") :=
  (claim_C1 [c1r1, c1r2, c1r3] 0 (by decide)).1

/-! ## Claim C4: totals -/

/-- Employee count, one row at a time. -/
theorem totalEmployees_cons (r : Row) (rs : List Row) :
    totalEmployees (r :: rs) = (if r.memberType = "EE" then 1 else 0) + totalEmployees rs := by
  unfold totalEmployees
  rw [List.filter_cons]
  by_cases hr : r.memberType = "EE"
  · simp [hr, Nat.add_comm]
  · simp [hr]

/-- Splitting the EE rows by whether their derived tier is Waive recovers
the employee count, for any starting accumulator of the forward pass. -/
theorem waived_split : ∀ (rows : List Row) (init : String),
    ((rows.zip (medFrom init rows)).filter
        (fun p => p.1.memberType == "EE" && p.2 == "Waive")).length +
      ((rows.zip (medFrom init rows)).filter
        (fun p => p.1.memberType == "EE" && !(p.2 == "Waive"))).length
      = totalEmployees rows := by
  intro rows
  induction rows with
  | nil => intro init; rfl
  | cons r rs ih =>
    intro init
    rw [totalEmployees_cons]
    simp only [medFrom]
    by_cases hr : r.memberType = "EE"
    · rw [if_pos hr, if_pos hr]
      have hb : (r.memberType == "EE") = true := by simp [hr]
      have := ih (aetnaTier r.coverageTier)
      by_cases ht : (aetnaTier r.coverageTier == "Waive") = true
      · simp only [List.zip_cons_cons, List.filter_cons, hb, ht, Bool.true_and, Bool.not_true,
          Bool.and_false, Bool.and_true]
        simp only [if_true, Bool.false_eq_true, if_false, List.length_cons]
        omega
      · have ht2 : (aetnaTier r.coverageTier == "Waive") = false := by simpa using ht
        simp only [List.zip_cons_cons, List.filter_cons, hb, ht2, Bool.true_and, Bool.not_false,
          Bool.and_false, Bool.and_true]
        simp only [if_true, Bool.false_eq_true, if_false, List.length_cons]
        omega
    · rw [if_neg hr, if_neg hr]
      have hb : (r.memberType == "EE") = false := by simpa using hr
      simp only [List.zip_cons_cons, List.filter_cons, hb, Bool.false_and, Bool.false_eq_true,
        if_false]
      simpa using ih init

/-- When every EE row waives, no EE position carries a non-Waive tier. -/
theorem waived_all : ∀ (rows : List Row) (init : String),
    (∀ r ∈ rows, r.memberType = "EE" → r.coverageTier = "WO") →
    ((rows.zip (medFrom init rows)).filter
      (fun p => p.1.memberType == "EE" && !(p.2 == "Waive"))).length = 0 := by
  intro rows
  induction rows with
  | nil => intro init _; rfl
  | cons r rs ih =>
    intro init h
    have htail : ∀ x ∈ rs, x.memberType = "EE" → x.coverageTier = "WO" :=
      fun x hx => h x (by simp [hx])
    simp only [medFrom]
    by_cases hr : r.memberType = "EE"
    · have hwo : r.coverageTier = "WO" := h r (by simp) hr
      have hb : (r.memberType == "EE") = true := by simp [hr]
      have ht : (aetnaTier r.coverageTier == "Waive") = true := by rw [hwo]; decide
      rw [if_pos hr]
      simp only [List.zip_cons_cons, List.filter_cons, hb, ht, Bool.true_and, Bool.not_true,
        Bool.and_false, Bool.false_eq_true, if_false]
      exact ih (aetnaTier r.coverageTier) htail
    · have hb : (r.memberType == "EE") = false := by simpa using hr
      rw [if_neg hr]
      simp only [List.zip_cons_cons, List.filter_cons, hb, Bool.false_and, Bool.false_eq_true,
        if_false]
      exact ih init htail

/-- An EE row that waives coverage. -/
def c4w : Row := ⟨"A", "B", "M", "01/01/1980", "12345", "EE", "WO", "Active", "", ""⟩

/-- C4: total_employees counts the EE rows, waived counts the EE rows whose
derived tier is Waive, total_enrolled is their clamped difference, which
equals the count of EE rows not waiving, is never negative, and is zero for
an all-waived roster; a waiving EE row counts toward employees but not
enrolled. -/
theorem claim_C4 (rows : List Row) :
    (totalEmployees rows = (rows.filter (fun r => r.memberType == "EE")).length) ∧
    (waivedEE rows ≤ totalEmployees rows) ∧
    (totalEnrolled rows = max ((totalEmployees rows : Int) - (waivedEE rows : Int)) 0) ∧
    (totalEnrolled rows = (totalEmployees rows : Int) - (waivedEE rows : Int)) ∧
    (0 ≤ totalEnrolled rows) ∧
    (totalEnrolled rows =
      (((rows.zip (medList rows)).filter
        (fun p => p.1.memberType == "EE" && !(p.2 == "Waive"))).length : Int)) ∧
    ((∀ r ∈ rows, r.memberType = "EE" → r.coverageTier = "WO") → totalEnrolled rows = 0) ∧
    (totalEmployees [c4w] = 1 ∧ totalEnrolled [c4w] = 0) := by
  have hsplit : waivedEE rows +
      ((rows.zip (medList rows)).filter
        (fun p => p.1.memberType == "EE" && !(p.2 == "Waive"))).length = totalEmployees rows :=
    waived_split rows ""
  have hle : waivedEE rows ≤ totalEmployees rows := by omega
  have henr : totalEnrolled rows = (totalEmployees rows : Int) - (waivedEE rows : Int) := by
    unfold totalEnrolled
    rw [max_eq_left (sub_nonneg.mpr (by exact_mod_cast hle))]
  refine ⟨rfl, hle, rfl, henr, ?_, ?_, ?_, by decide, by decide⟩
  · unfold totalEnrolled
    exact le_max_right _ 0
  · rw [henr]
    omega
  · intro hall
    have hz := waived_all rows "" hall
    rw [henr]
    have hz2 : ((rows.zip (medList rows)).filter
      (fun p => p.1.memberType == "EE" && !(p.2 == "Waive"))).length = 0 := hz
    omega

/-- C4 witness: the all-waived clause at a one-row waiving roster. -/
theorem claim_C4_witness : totalEnrolled [c4w] = 0 :=
  (claim_C4 [c4w]).2.2.2.2.2.2.1 (by decide)

/-! ## Claim C3: the validation engine -/

/-- The seven per-row rules: which message appears for which condition, and
when a row produces no message at all. -/
theorem rowIssues_spec (r : Row) :
    ("Missing First Name" ∈ rowIssues r ↔ r.firstName = "") ∧
    ("Missing Last Name" ∈ rowIssues r ↔ r.lastName = "") ∧
    ("Member Type must be EE/SP/CH" ∈ rowIssues r ↔
      r.memberType ∉ (["EE", "SP", "CH"] : List String)) ∧
    ("Coverage Tier invalid" ∈ rowIssues r ↔
      r.coverageTier ∉ (["EE", "EC", "ES", "FAM", "WO", ""] : List String)) ∧
    ("Subscriber missing DOB" ∈ rowIssues r ↔ (r.memberType = "EE" ∧ r.dob = "")) ∧
    ("Subscriber missing Home Zip" ∈ rowIssues r ↔ (r.memberType = "EE" ∧ r.homeZip = "")) ∧
    ("Work Status should be blank for non-EE" ∈ rowIssues r ↔
      (r.memberType ≠ "EE" ∧ r.workStatus ≠ "")) ∧
    (rowIssues r = [] ↔
      (r.firstName ≠ "" ∧ r.lastName ≠ "" ∧
       r.memberType ∈ (["EE", "SP", "CH"] : List String) ∧
       r.coverageTier ∈ (["EE", "EC", "ES", "FAM", "WO", ""] : List String) ∧
       (r.memberType = "EE" → r.dob ≠ "" ∧ r.homeZip ≠ "") ∧
       ¬(r.memberType ≠ "EE" ∧ r.workStatus ≠ ""))) := by
  unfold rowIssues
  split_ifs <;> simp_all

/-- Every record of the validation loop started at i carries a row number in
the window of the processed rows. -/
theorem validationIssuesFrom_bounds : ∀ (rows : List Row) (i : Nat) (rec : Issue),
    rec ∈ validationIssuesFrom i rows → i + 2 ≤ rec.row ∧ rec.row < i + rows.length + 2 := by
  intro rows
  induction rows with
  | nil =>
    intro i rec h
    exact absurd h (by simp [validationIssuesFrom])
  | cons r rs ih =>
    intro i rec h
    unfold validationIssuesFrom at h
    rcases List.mem_append.mp h with h1 | h2
    · by_cases hr : rowIssues r = []
      · rw [if_pos hr] at h1
        exact absurd h1 (by simp)
      · rw [if_neg hr] at h1
        have he : rec = mkIssue i r (rowIssues r) := by simpa using h1
        subst he
        refine ⟨le_refl _, ?_⟩
        show i + 2 < i + (r :: rs).length + 2
        simp only [List.length_cons]
        omega
    · have hb := ih (i + 1) rec h2
      simp only [List.length_cons]
      omega

/-- Filtering the validation records by a row number recovers exactly the
record of that position: one when the row violates a rule, none otherwise. -/
theorem validationIssuesFrom_filter : ∀ (rows : List Row) (i j : Nat), j < rows.length →
    (validationIssuesFrom i rows).filter (fun rec => rec.row == i + j + 2) =
      (if rowIssues (rows.getD j dRow) = [] then []
       else [mkIssue (i + j) (rows.getD j dRow) (rowIssues (rows.getD j dRow))]) := by
  intro rows
  induction rows with
  | nil =>
    intro i j hj
    exact absurd hj (by simp)
  | cons r rs ih =>
    intro i j hj
    unfold validationIssuesFrom
    rw [List.filter_append]
    cases j with
    | zero =>
      simp only [List.getD_cons_zero]
      have htail : (validationIssuesFrom (i + 1) rs).filter
          (fun rec => rec.row == i + 0 + 2) = [] := by
        rw [List.filter_eq_nil_iff]
        intro rec hrec
        have hb := validationIssuesFrom_bounds rs (i + 1) rec hrec
        simp only [beq_iff_eq]
        omega
      rw [htail]
      by_cases hr : rowIssues r = []
      · rw [if_pos hr, if_pos hr]
        simp
      · rw [if_neg hr, if_neg hr]
        have hpred : ((mkIssue i r (rowIssues r)).row == i + 0 + 2) = true := by
          simp [mkIssue]
        simp only [List.filter_cons, hpred, if_true, List.filter_nil, List.append_nil]
        simp [mkIssue]
    | succ j =>
      simp only [List.getD_cons_succ]
      have hhead : ((if rowIssues r = [] then [] else [mkIssue i r (rowIssues r)]).filter
          (fun rec => rec.row == i + (j + 1) + 2)) = [] := by
        by_cases hr : rowIssues r = []
        · rw [if_pos hr]
          rfl
        · rw [if_neg hr]
          have hpred : ((mkIssue i r (rowIssues r)).row == i + (j + 1) + 2) = false := by
            simp only [mkIssue, beq_eq_false_iff_ne, ne_eq]
            omega
          simp [List.filter_cons, hpred]
      rw [hhead, List.nil_append]
      have hlt : j < rs.length := by simpa using Nat.lt_of_succ_lt_succ hj
      have hstep := ih (i + 1) j hlt
      have heq : i + 1 + j + 2 = i + (j + 1) + 2 := by omega
      have heq2 : i + 1 + j = i + (j + 1) := by omega
      rw [← heq, hstep, heq2]

/-- The validation records appear in strictly increasing row order. -/
theorem validationIssuesFrom_pairwise : ∀ (rows : List Row) (i : Nat),
    List.Pairwise (fun a b : Issue => a.row < b.row) (validationIssuesFrom i rows) := by
  intro rows
  induction rows with
  | nil =>
    intro i
    simp [validationIssuesFrom]
  | cons r rs ih =>
    intro i
    unfold validationIssuesFrom
    rw [List.pairwise_append]
    refine ⟨?_, ih (i + 1), ?_⟩
    · by_cases hr : rowIssues r = []
      · rw [if_pos hr]
        exact List.Pairwise.nil
      · rw [if_neg hr]
        exact List.pairwise_singleton _ _
    · intro a ha b hb
      have hbb := validationIssuesFrom_bounds rs (i + 1) b hb
      by_cases hr : rowIssues r = []
      · rw [if_pos hr] at ha
        exact absurd ha (by simp)
      · rw [if_neg hr] at ha
        have he : a = mkIssue i r (rowIssues r) := by simpa using ha
        subst he
        show i + 2 < b.row
        omega

/-- Every status warning of the pass started at i carries a row number in
the window of the processed rows. -/
theorem statusPassFrom_bounds : ∀ (ms : List MidRow) (i : Nat) (rec : Issue),
    rec ∈ (statusPassFrom i ms).2 → i + 2 ≤ rec.row ∧ rec.row < i + ms.length + 2 := by
  intro ms
  induction ms with
  | nil =>
    intro i rec h
    exact absurd h (by simp [statusPassFrom])
  | cons m ms ih =>
    intro i rec h
    unfold statusPassFrom at h
    rcases List.mem_append.mp h with h1 | h2
    · by_cases hm : (_norm_status m.workStatusRaw).2 = ""
      · rw [if_pos hm] at h1
        exact absurd h1 (by simp)
      · rw [if_neg hm] at h1
        have he : rec = ⟨i + 2, m.firstName, m.lastName, (_norm_status m.workStatusRaw).2⟩ := by
          simpa using h1
        subst he
        refine ⟨le_refl _, ?_⟩
        show i + 2 < i + (m :: ms).length + 2
        simp only [List.length_cons]
        omega
    · have hb := ih (i + 1) rec h2
      simp only [List.length_cons]
      omega

/-- The status warnings appear in strictly increasing row order. -/
theorem statusPassFrom_pairwise : ∀ (ms : List MidRow) (i : Nat),
    List.Pairwise (fun a b : Issue => a.row < b.row) (statusPassFrom i ms).2 := by
  intro ms
  induction ms with
  | nil =>
    intro i
    simp [statusPassFrom]
  | cons m ms ih =>
    intro i
    unfold statusPassFrom
    rw [List.pairwise_append]
    refine ⟨?_, ih (i + 1), ?_⟩
    · by_cases hm : (_norm_status m.workStatusRaw).2 = ""
      · rw [if_pos hm]
        exact List.Pairwise.nil
      · rw [if_neg hm]
        exact List.pairwise_singleton _ _
    · intro a ha b hb
      have hbb := statusPassFrom_bounds ms (i + 1) b hb
      by_cases hm : (_norm_status m.workStatusRaw).2 = ""
      · rw [if_pos hm] at ha
        exact absurd ha (by simp)
      · rw [if_neg hm] at ha
        have he : a = ⟨i + 2, m.firstName, m.lastName, (_norm_status m.workStatusRaw).2⟩ := by
          simpa using ha
        subst he
        show i + 2 < b.row
        omega

/-- C3: each row violating one of the seven rules yields exactly one issue
record, at Row = position + 2, with its messages joined by a semicolon and a
space; clean rows yield no record; the issues table lists the validation
records in row order followed by the status warnings in row order. -/
theorem claim_C3 (rows : List Row) (j : Nat) (h : j < rows.length) (ms : List MidRow) :
    (∀ r : Row,
      ("Missing First Name" ∈ rowIssues r ↔ r.firstName = "") ∧
      ("Missing Last Name" ∈ rowIssues r ↔ r.lastName = "") ∧
      ("Member Type must be EE/SP/CH" ∈ rowIssues r ↔
        r.memberType ∉ (["EE", "SP", "CH"] : List String)) ∧
      ("Coverage Tier invalid" ∈ rowIssues r ↔
        r.coverageTier ∉ (["EE", "EC", "ES", "FAM", "WO", ""] : List String)) ∧
      ("Subscriber missing DOB" ∈ rowIssues r ↔ (r.memberType = "EE" ∧ r.dob = "")) ∧
      ("Subscriber missing Home Zip" ∈ rowIssues r ↔ (r.memberType = "EE" ∧ r.homeZip = "")) ∧
      ("Work Status should be blank for non-EE" ∈ rowIssues r ↔
        (r.memberType ≠ "EE" ∧ r.workStatus ≠ "")) ∧
      (rowIssues r = [] ↔
        (r.firstName ≠ "" ∧ r.lastName ≠ "" ∧
         r.memberType ∈ (["EE", "SP", "CH"] : List String) ∧
         r.coverageTier ∈ (["EE", "EC", "ES", "FAM", "WO", ""] : List String) ∧
         (r.memberType = "EE" → r.dob ≠ "" ∧ r.homeZip ≠ "") ∧
         ¬(r.memberType ≠ "EE" ∧ r.workStatus ≠ "")))) ∧
    ((validationIssues rows).filter (fun rec => rec.row == j + 2) =
      (if rowIssues (rows.getD j dRow) = [] then []
       else [mkIssue j (rows.getD j dRow) (rowIssues (rows.getD j dRow))])) ∧
    List.Pairwise (fun a b : Issue => a.row < b.row) (validationIssues rows) ∧
    List.Pairwise (fun a b : Issue => a.row < b.row) (statusPass ms).2 ∧
    ((normalizeAndValidateCore [] ms).2 =
      validationIssues (statusPass ms).1 ++ (statusPass ms).2) := by
  refine ⟨rowIssues_spec, ?_, validationIssuesFrom_pairwise rows 0,
    statusPassFrom_pairwise ms 0, by simp [normalizeAndValidateCore]⟩
  have hstep := validationIssuesFrom_filter rows 0 j h
  simpa only [Nat.zero_add] using hstep

/-- C3 witness: a clean one-row table produces no validation record at row
two. -/
theorem claim_C3_witness :
    (validationIssues [c4w]).filter (fun rec => rec.row == 0 + 2) =
      (if rowIssues (([c4w] : List Row).getD 0 dRow) = [] then []
       else [mkIssue 0 (([c4w] : List Row).getD 0 dRow)
              (rowIssues (([c4w] : List Row).getD 0 dRow))]) :=
  (claim_C3 [c4w] 0 (by decide) [c6Mid]).2.1

/-! ## Claim C9: the canonical column schema -/

/-- C9: whatever columns arrive, the canonical table carries exactly the ten
standard columns in their fixed order, every column has one value per row,
and an absent source column appears as a column of empty values. -/
theorem claim_C9 (n : Nat) (cols : List (String × List String))
    (h : ∀ c ∈ cols, c.2.length = n) :
    ((_ensure_all_cols n cols).map Prod.fst = STANDARD_COLS) ∧
    ((_ensure_all_cols n cols).length = 10) ∧
    (∀ c ∈ _ensure_all_cols n cols, c.2.length = n) ∧
    (∀ name ∈ STANDARD_COLS, cols.find? (fun c => c.1 == name) = none →
      (name, List.replicate n "") ∈ _ensure_all_cols n cols) := by
  refine ⟨rfl, rfl, ?_, ?_⟩
  · intro c hc
    unfold _ensure_all_cols at hc
    rcases List.mem_map.mp hc with ⟨name, hname, hval⟩
    rw [← hval]
    cases hf : cols.find? (fun c => c.1 == name) with
    | none => simp [hf]
    | some e =>
      simp only [hf, Option.map_some, Option.getD_some]
      exact h e (List.mem_of_find?_eq_some hf)
  · intro name hname hf
    unfold _ensure_all_cols
    apply List.mem_map.mpr
    refine ⟨name, hname, ?_⟩
    rw [hf]
    rfl

/-- C9 witness: a table carrying only a Last Name column still projects to
the full standard schema. -/
theorem claim_C9_witness :
    (_ensure_all_cols 1 [("Last Name", ["x"])]).map Prod.fst = STANDARD_COLS :=
  (claim_C9 1 [("Last Name", ["x"])] (by decide)).1

/-! ## Claim C10: the Coverage Tier invalid rule is dead on normalized data -/

/-- Every validation record is the semicolon join of the rule messages of
one of the rows. -/
theorem validationIssuesFrom_provenance : ∀ (rows : List Row) (i : Nat) (rec : Issue),
    rec ∈ validationIssuesFrom i rows →
    ∃ r ∈ rows, rec.issues = String.intercalate "; " (rowIssues r) := by
  intro rows
  induction rows with
  | nil =>
    intro i rec h
    exact absurd h (by simp [validationIssuesFrom])
  | cons r rs ih =>
    intro i rec h
    unfold validationIssuesFrom at h
    rcases List.mem_append.mp h with h1 | h2
    · by_cases hr : rowIssues r = []
      · rw [if_pos hr] at h1
        exact absurd h1 (by simp)
      · rw [if_neg hr] at h1
        have he : rec = mkIssue i r (rowIssues r) := by simpa using h1
        exact ⟨r, by simp, by subst he; rfl⟩
    · rcases ih (i + 1) rec h2 with ⟨x, hx, hxe⟩
      exact ⟨x, by simp [hx], hxe⟩

/-- The rows produced by the status pass are the input rows with the
normalized status installed. -/
theorem statusPassFrom_fst : ∀ (ms : List MidRow) (i : Nat),
    (statusPassFrom i ms).1 = ms.map (fun m => applyStatus m (_norm_status m.workStatusRaw).1) := by
  intro ms
  induction ms with
  | nil => intro i; rfl
  | cons m ms ih =>
    intro i
    unfold statusPassFrom
    rw [List.map_cons, ih (i + 1)]

/-- Every status record carries the non-empty warning of one of the rows. -/
theorem statusPassFrom_snd_provenance : ∀ (ms : List MidRow) (i : Nat) (rec : Issue),
    rec ∈ (statusPassFrom i ms).2 →
    ∃ m ∈ ms, rec.issues = (_norm_status m.workStatusRaw).2 ∧
      (_norm_status m.workStatusRaw).2 ≠ "" := by
  intro ms
  induction ms with
  | nil =>
    intro i rec h
    exact absurd h (by simp [statusPassFrom])
  | cons m ms ih =>
    intro i rec h
    unfold statusPassFrom at h
    rcases List.mem_append.mp h with h1 | h2
    · by_cases hm : (_norm_status m.workStatusRaw).2 = ""
      · rw [if_pos hm] at h1
        exact absurd h1 (by simp)
      · rw [if_neg hm] at h1
        have he : rec = ⟨i + 2, m.firstName, m.lastName, (_norm_status m.workStatusRaw).2⟩ := by
          simpa using h1
        exact ⟨m, by simp, by rw [he], hm⟩
    · rcases ih (i + 1) rec h2 with ⟨x, hx, hxe, hxn⟩
      exact ⟨x, by simp [hx], hxe, hxn⟩

/-- The status normalizer warns with the fixed text or not at all. -/
theorem norm_status_snd (v : String) :
    (_norm_status v).2 = "" ∨ (_norm_status v).2 = statusMsg v := by
  unfold _norm_status
  cases he : (pstrip v.toList).isEmpty with
  | true => simp
  | false =>
    rw [if_neg Bool.false_ne_true]
    cases hd : dictGet? allowedStatus (String.mk (pupper (pstrip v.toList))) with
    | none =>
      right
      rfl
    | some c =>
      left
      rfl

/-- A status warning is never the coverage validation message. -/
theorem statusMsg_ne (w : String) : statusMsg w ≠ "Coverage Tier invalid" := by
  intro h
  have hlen : (statusMsg w).length = ("Coverage Tier invalid" : String).length := by rw [h]
  have h1 : ("Ignored non-supported Work Status " : String).length = 34 := by decide
  have h2 : (" (only Active/Cobra kept)" : String).length = 25 := by decide
  have h3 : squote.length = 1 := by decide
  have h4 : ("Coverage Tier invalid" : String).length = 21 := by decide
  simp only [statusMsg, String.length_append, h1, h2, h3, h4] at hlen
  omega

/-- The semicolon join of a single message is that message. -/
theorem intercalate_singleton (s : String) : String.intercalate "; " [s] = s := rfl

/-- C10: the coverage normalizer only produces the five codes or the empty
string, rows whose Coverage Tier lies in that range never trigger the
Coverage Tier invalid rule, and on any table whose tiers lie in that range
no record of the issues table carries that message. -/
theorem claim_C10 (v : String) (rows : List Row) (ms : List MidRow) :
    (_norm_coverage v ∈ ("" :: covCodes)) ∧
    (∀ r : Row, r.coverageTier ∈ ("" :: covCodes) → "Coverage Tier invalid" ∉ rowIssues r) ∧
    ((∀ r ∈ rows, r.coverageTier ∈ ("" :: covCodes)) →
      ∀ rec ∈ validationIssues rows, ∃ msgs : List String,
        rec.issues = String.intercalate "; " msgs ∧ "Coverage Tier invalid" ∉ msgs) ∧
    ((∀ m ∈ ms, m.coverageTier ∈ ("" :: covCodes)) →
      ∀ rec ∈ (normalizeAndValidateCore [] ms).2, ∃ msgs : List String,
        rec.issues = String.intercalate "; " msgs ∧ "Coverage Tier invalid" ∉ msgs) := by
  have hnot : ∀ r : Row, r.coverageTier ∈ ("" :: covCodes) →
      "Coverage Tier invalid" ∉ rowIssues r := by
    intro r hr hmem
    have h4 := (rowIssues_spec r).2.2.2.1
    apply h4.mp hmem
    simp only [covCodes, List.mem_cons, List.not_mem_nil, or_false] at hr ⊢
    tauto
  have hval : ∀ (rows : List Row), (∀ r ∈ rows, r.coverageTier ∈ ("" :: covCodes)) →
      ∀ rec ∈ validationIssues rows, ∃ msgs : List String,
        rec.issues = String.intercalate "; " msgs ∧ "Coverage Tier invalid" ∉ msgs := by
    intro rows hall rec hrec
    rcases validationIssuesFrom_provenance rows 0 rec hrec with ⟨r, hrmem, hiss⟩
    exact ⟨rowIssues r, hiss, hnot r (hall r hrmem)⟩
  refine ⟨?_, hnot, hval rows, ?_⟩
  · unfold _norm_coverage
    cases he : (pstrip v.toList).isEmpty with
    | true => simp
    | false =>
      rw [if_neg Bool.false_ne_true]
      cases hd : dictGet? covAliases (covClean v) with
      | some c =>
        have hv := dictGet_mem_values _ _ _ hd
        have hall : ∀ x ∈ covAliases.map Prod.snd, x ∈ covCodes := by decide
        exact List.mem_cons_of_mem _ (hall c hv)
      | none =>
        show (if covClean v ∈ covCodes then covClean v else "") ∈ ("" :: covCodes)
        by_cases hin : covClean v ∈ covCodes
        · rw [if_pos hin]
          exact List.mem_cons_of_mem _ hin
        · rw [if_neg hin]
          exact List.mem_cons_self _ _
  · intro hall rec hrec
    have hsplit : (normalizeAndValidateCore [] ms).2 =
        validationIssues (statusPass ms).1 ++ (statusPass ms).2 := by
      simp [normalizeAndValidateCore]
    rw [hsplit] at hrec
    rcases List.mem_append.mp hrec with h1 | h2
    · apply hval (statusPass ms).1 ?hrows rec h1
      case hrows =>
        intro r hr
        rw [show (statusPass ms).1 = ms.map
            (fun m => applyStatus m (_norm_status m.workStatusRaw).1) from
          statusPassFrom_fst ms 0] at hr
        rcases List.mem_map.mp hr with ⟨m, hm, hme⟩
        rw [← hme]
        exact hall m hm
    · rcases statusPassFrom_snd_provenance ms 0 rec h2 with ⟨m, _, hiss, hne⟩
      rcases norm_status_snd m.workStatusRaw with hz | hz
      · exact absurd hz hne
      · refine ⟨[statusMsg m.workStatusRaw], ?_, ?_⟩
        · rw [hiss, hz, intercalate_singleton]
        · intro hmem
          rcases List.mem_singleton.mp hmem with h
          exact statusMsg_ne m.workStatusRaw h.symm

/-- C10 witness: the range clause at the sample value and the rule clause at
the waiving subscriber row. -/
theorem claim_C10_witness :
    _norm_coverage "zzz" ∈ ("" :: covCodes) ∧ "Coverage Tier invalid" ∉ rowIssues c4w :=
  ⟨(claim_C10 "zzz" [] []).1, (claim_C10 "zzz" [] []).2.1 c4w (by decide)⟩

/-! ## Claim C5: the name splitter -/

/-- C5: the splitter returns empty results for blank input; splits on the
first comma taking the first token after it as the first name, classifying
the remaining tokens as suffixes or middle names and joining the last name
as last-part, middle, suffix, with a warning when nothing follows the
comma; treats a lone token as the last name with a warning; and without a
comma takes the first token as first name and core-then-suffix as last
name, warning when only suffix tokens remain; the two samples behave as
specified. -/
theorem claim_C5 (s : String) :
    ((pstrip s.toList).isEmpty = true → _split_full_name s = ("", "", [])) ∧
    ((pstrip s.toList).isEmpty = false → (pstrip s.toList).contains ',' = true →
      ∀ lastP restPs, splitChar ',' (pstrip s.toList) = lastP :: restPs →
        ((pwsplit (pstrip (List.intercalate [','] restPs)) = [] →
          _split_full_name s =
            ("", String.mk (pstrip lastP), ["Full Name split yielded empty first name"])) ∧
         (∀ f tl, pwsplit (pstrip (List.intercalate [','] restPs)) = f :: tl →
          _split_full_name s =
            (String.mk f,
             String.mk (joinLast (pstrip lastP)
               (tl.filter (fun t => !(isSuffixTok t))) (tl.filter isSuffixTok)),
             [])))) ∧
    ((pstrip s.toList).isEmpty = false → (pstrip s.toList).contains ',' = false →
      ∀ t, pwsplit (pstrip s.toList) = [t] →
        _split_full_name s =
          ("", String.mk t, ["Full Name has single token; treated as last name"])) ∧
    ((pstrip s.toList).isEmpty = false → (pstrip s.toList).contains ',' = false →
      ∀ f t2 tl, pwsplit (pstrip s.toList) = f :: t2 :: tl →
        (((t2 :: tl).filter (fun t => !(isSuffixTok t)) = [] →
          _split_full_name s =
            (String.mk f, String.mk (List.intercalate [' '] ((t2 :: tl).filter isSuffixTok)),
             ["Name missing core last name; suffix only"])) ∧
         (∀ c cs, (t2 :: tl).filter (fun t => !(isSuffixTok t)) = c :: cs →
          _split_full_name s =
            (String.mk f,
             String.mk (List.intercalate [' '] ((c :: cs) ++ (t2 :: tl).filter isSuffixTok)),
             [])))) ∧
    (_split_full_name "Smith, John Michael Jr" = ("John", "Smith Michael Jr", []) ∧
     _split_full_name "Madonna" =
       ("", "Madonna", ["Full Name has single token; treated as last name"]) ∧
     (_split_full_name "Madonna").2.2.length = 1 ∧
     isSuffixTok "Jr.".toList = true ∧ isSuffixTok "jr".toList = true ∧
     isSuffixTok "III".toList = true ∧ isSuffixTok "Michael".toList = false) := by
  refine ⟨?_, ?_, ?_, ?_,
    by decide, by decide, by decide, by decide, by decide, by decide, by decide⟩
  · intro he
    unfold _split_full_name
    rw [if_pos he]
  · intro hne hc lastP restPs hsplit
    have hbody : _split_full_name s = commaCase (pstrip s.toList) := by
      unfold _split_full_name
      rw [if_neg (by rw [hne]; exact Bool.false_ne_true), if_pos hc]
    have hcc : commaCase (pstrip s.toList) =
        commaTail (pstrip lastP) (pstrip (List.intercalate [','] restPs)) := by
      unfold commaCase
      rw [hsplit]
    constructor
    · intro hrest
      rw [hbody, hcc]
      unfold commaTail
      rw [hrest]
    · intro f tl hrest
      rw [hbody, hcc]
      unfold commaTail
      rw [hrest]
  · intro hne hc t hsingle
    have hbody : _split_full_name s = noCommaCase (pstrip s.toList) := by
      unfold _split_full_name
      rw [if_neg (by rw [hne]; exact Bool.false_ne_true),
        if_neg (by rw [hc]; exact Bool.false_ne_true)]
    rw [hbody]
    unfold noCommaCase
    rw [hsingle]
  · intro hne hc f t2 tl hsplit
    have hbody : _split_full_name s = noCommaCase (pstrip s.toList) := by
      unfold _split_full_name
      rw [if_neg (by rw [hne]; exact Bool.false_ne_true),
        if_neg (by rw [hc]; exact Bool.false_ne_true)]
    constructor
    · intro hcore
      rw [hbody]
      unfold noCommaCase
      rw [hsplit]
      show (if ((t2 :: tl).filter (fun t => !(isSuffixTok t))).isEmpty then _ else _) = _
      rw [if_pos (by rw [hcore]; rfl)]
    · intro c cs hcore
      rw [hbody]
      unfold noCommaCase
      rw [hsplit]
      show (if ((t2 :: tl).filter (fun t => !(isSuffixTok t))).isEmpty then _ else _) = _
      rw [if_neg (by rw [hcore]; exact Bool.false_ne_true)]
      rw [hcore]

/-- C5 witness: the single-token clause at the Madonna sample. -/
theorem claim_C5_witness :
    _split_full_name "Madonna" =
      ("", String.mk "Madonna".toList, ["Full Name has single token; treated as last name"]) :=
  (claim_C5 "Madonna").2.2.1 (by decide) (by decide) "Madonna".toList (by decide)
